import Mathlib

/-!
Verification development for the call-throttle repository: a shallow
embedding of the sliding-window call throttle and its decorator glue
(`src/call_throttle/decorators.py`), together with proofs of the
specification's claims about it.

Timestamps and durations are modelled as `Int` ticks of the monotonic
clock; a guarded operation is a function `α → Except ε β` (a raised
exception is an `Except.error`).
-/

namespace CallThrottle

/-- Throttle configuration, from the spec's data model (§3): `calls`
(ceiling), `period` (window duration), `raiseOnThrottle` (reject policy). -/
structure ThrottleConfiguration where
  calls : Int
  period : Int
  raiseOnThrottle : Bool
deriving DecidableEq

/-- Error kinds surfaced at the library boundary (§7). -/
inductive ThrottleError
  | ConfigurationError
  | ThrottleExceeded
deriving DecidableEq

/-- Modelled from the spec: the `call_throttle.throttle` module (classes
`Throttle` and `AsyncThrottle` imported by `decorators.py`) is not among
the provided sources.  Construction validates the configuration eagerly
(§3, §6, §7): invalid if `calls <= 0` or `period <= 0`, detected at
construction and never during a call. -/
def mkThrottle (calls period : Int) (raiseOnThrottle : Bool) :
    Except ThrottleError ThrottleConfiguration :=
  if calls ≤ 0 ∨ period ≤ 0 then Except.error ThrottleError.ConfigurationError
  else Except.ok (ThrottleConfiguration.mk calls period raiseOnThrottle)

/-- Admission decision of the sliding-window calculator (§3). -/
inductive AdmissionDecision
  | Allow
  | WaitFor (d : Int)
  | Reject
deriving DecidableEq

/-- Modelled from the spec: eviction step of the calculator (§4.1), part of
the absent `call_throttle.throttle` module.  Every timestamp `t` with
`now - t >= period` is evicted (so a timestamp is kept iff `now - t < period`). -/
def evict (history : List Int) (now period : Int) : List Int :=
  history.filter (fun t => decide (now - t < period))

/-- Modelled from the spec: the sliding-window admission calculator
`decide(history, now, config)` (§4.1), part of the absent
`call_throttle.throttle` module.  Evict, then: if the evicted history has
fewer than `calls` entries, append `now` and allow; otherwise reject when
`raiseOnThrottle` is set, else ask the caller to wait until the oldest
entry ages past `period`. -/
def decide (history : List Int) (now : Int) (cfg : ThrottleConfiguration) :
    AdmissionDecision × List Int :=
  let h := evict history now cfg.period
  if (h.length : Int) < cfg.calls then (AdmissionDecision.Allow, h ++ [now])
  else if cfg.raiseOnThrottle then (AdmissionDecision.Reject, h)
  else (AdmissionDecision.WaitFor (h.headD now + cfg.period - now), h)

/-- Events of a single wrapper invocation, in program order. -/
inductive SeqEv
  | acquire
  | decideStep
  | waitStep (d : Int)
  | release
  | invokeGuarded
deriving DecidableEq

/-- Result of one admission attempt (`Throttle.call` / `AsyncThrottle.call`). -/
inductive AdmitResult
  | admitted (history : List Int) (admitTime : Int)
  | rejected
  | cancelled
  | fuelOut
deriving DecidableEq

/-- Modelled from the spec: the admission wait loop of `Throttle.call` and
`AsyncThrottle.call` (§4.2, §4.3), part of the absent
`call_throttle.throttle` module.  Loop: decide; `Allow` returns, `Reject`
fails with `ThrottleExceeded`, `WaitFor d` sleeps (or suspends) for `d`
and re-evaluates.  `cancelAfter = some k` models the cooperative
suspension of the `k`-th wait being cancelled (§4.3): the attempt aborts,
leaving the history unmodified.  `fuel` bounds the recursion; the trace of
`decideStep`/`waitStep` events is returned alongside the result. -/
def admitLoop : Nat → Option Nat → Nat → List Int → Int → ThrottleConfiguration →
    AdmitResult × List SeqEv
  | 0, _, _, _, _, _ => (AdmitResult.fuelOut, [])
  | fuel + 1, cancelAfter, waits, history, now, cfg =>
    match decide history now cfg with
    | (AdmissionDecision.Allow, h) => (AdmitResult.admitted h now, [SeqEv.decideStep])
    | (AdmissionDecision.Reject, _) => (AdmitResult.rejected, [SeqEv.decideStep])
    | (AdmissionDecision.WaitFor d, h) =>
      if cancelAfter = some waits then
        (AdmitResult.cancelled, [SeqEv.decideStep, SeqEv.waitStep d])
      else
        let rest := admitLoop fuel cancelAfter (waits + 1) h (now + d) cfg
        (rest.1, SeqEv.decideStep :: SeqEv.waitStep d :: rest.2)

/-- Outcome of one call through the wrapper, as seen by the caller. -/
inductive CallOutcome (ε β : Type)
  | configFailure
  | throttleFailure
  | cancelledFailure
  | noResult
  | completed (r : Except ε β)

/-- Embedding of the wrapper bodies of `decorators.py` (lines 44-49 and
56-61): acquire the per-operation lock, run the throttle's admission to
completion while holding it, release it, and only then invoke the guarded
operation, returning its result (or exception) unchanged.  The mutable
call history is threaded explicitly; the event trace records the control
flow. -/
def wrapperRun {α ε β : Type} (cfg : ThrottleConfiguration) (f : α → Except ε β)
    (a : α) (history : List Int) (now : Int) (cancelAfter : Option Nat) :
    CallOutcome ε β × List Int × List SeqEv :=
  let r := admitLoop (history.length + 1 + 1) cancelAfter 0 history now cfg
  match r.1 with
  | AdmitResult.admitted h _ =>
      (CallOutcome.completed (f a), h,
        SeqEv.acquire :: r.2 ++ SeqEv.release :: [SeqEv.invokeGuarded])
  | AdmitResult.rejected =>
      (CallOutcome.throttleFailure, history, SeqEv.acquire :: r.2 ++ [SeqEv.release])
  | AdmitResult.cancelled =>
      (CallOutcome.cancelledFailure, history, SeqEv.acquire :: r.2 ++ [SeqEv.release])
  | AdmitResult.fuelOut =>
      (CallOutcome.noResult, history, SeqEv.acquire :: r.2 ++ [SeqEv.release])

/-- Python-level metadata of a callable (`__name__`, `__doc__`). -/
structure PyMeta where
  name : String
  doc : String
deriving DecidableEq

/-- A guarded operation as handed to the decorator: its metadata, whether
`asyncio.iscoroutinefunction` holds of it, and its behaviour. -/
structure GuardedOp (α ε β : Type) where
  meta : PyMeta
  isCoroutine : Bool
  run : α → Except ε β

/-- The two throttle variants of the spec (§2): blocking (thread-based)
and suspending (task-based). -/
inductive Variant
  | blocking
  | suspending
deriving DecidableEq

/-- Embedding of the dispatch at `decorators.py` line 39: the variant is
chosen by inspecting `asyncio.iscoroutinefunction(func)` — coroutine
functions get the suspending `AsyncThrottle` wrapper, everything else the
blocking `Throttle` wrapper. -/
def selectVariant (isCoroutine : Bool) : Variant :=
  if isCoroutine then Variant.suspending else Variant.blocking

/-- The wrapped callable returned by the decorator: its metadata (set by
`functools.wraps`), its kind (`async def` wrapper iff the original was a
coroutine function), the selected variant, the `__wrapped__` reference,
and its behaviour. -/
structure WrappedOp (α ε β : Type) where
  meta : PyMeta
  isCoroutine : Bool
  variant : Variant
  wrapped : GuardedOp α ε β
  run : α → List Int → Int → Option Nat → CallOutcome ε β × List Int × List SeqEv

/-- Embedding of `decorator` in `decorators.py` (lines 37-63): one
throttle and one lock are created for the function being wrapped, the
wrapper kind follows `asyncio.iscoroutinefunction(func)`, and
`functools.wraps(func)` copies the metadata onto the wrapper. -/
def decorator {α ε β : Type} (cfg : ThrottleConfiguration) (f : GuardedOp α ε β) :
    WrappedOp α ε β :=
  ⟨f.meta, f.isCoroutine, selectVariant f.isCoroutine, f,
    fun a hist now c => wrapperRun cfg f.run a hist now c⟩

/-- Embedding of the decorator factory `throttle(calls, period,
raise_on_throttle)` applied to a function: the throttle object is
constructed (and validated) when the function is decorated, before any
call can be made. -/
def throttleFactory {α ε β : Type} (calls period : Int) (r : Bool)
    (f : GuardedOp α ε β) : Except ThrottleError (WrappedOp α ε β) :=
  match mkThrottle calls period r with
  | Except.error e => Except.error e
  | Except.ok cfg => Except.ok (decorator cfg f)

/-- Probe metadata shared by the two C1 probe operations. -/
def probeMeta : PyMeta := PyMeta.mk "op" "doc"

/-- A coroutine-function probe: identical to `funcProbe` except for its
runtime kind. -/
def coroProbe : GuardedOp Nat Unit Nat :=
  GuardedOp.mk probeMeta true (fun n => Except.ok n)

/-- A plain-function probe: identical to `coroProbe` except for its
runtime kind. -/
def funcProbe : GuardedOp Nat Unit Nat :=
  GuardedOp.mk probeMeta false (fun n => Except.ok n)

/-- A sample valid configuration for the C1 probes. -/
def probeCfg : ThrottleConfiguration := ThrottleConfiguration.mk 1 1 false

/-- C1 counterexample: the claim says the variant choice involves no
runtime type inspection of the guarded operation, but two operations that
differ only in their runtime kind (coroutine function vs plain function)
receive different variants from the same decoration, so the selection does
inspect the operation's runtime type. -/
theorem variant_by_inspection_counterexample :
    (decorator probeCfg coroProbe).variant ≠ (decorator probeCfg funcProbe).variant := by
  decide

/-- C1 (amended): the choice between the blocking and the suspending
variant is made at decoration time by runtime inspection of the guarded
operation (`asyncio.iscoroutinefunction`), not by an explicit caller
choice: a coroutine function gets the suspending variant and a plain
function the blocking one. -/
theorem variant_by_inspection {α ε β : Type} (cfg : ThrottleConfiguration)
    (f g : GuardedOp α ε β) (hf : f.isCoroutine = true) (hg : g.isCoroutine = false) :
    (decorator cfg f).variant = Variant.suspending ∧
    (decorator cfg g).variant = Variant.blocking := by
  constructor
  · show selectVariant f.isCoroutine = Variant.suspending
    rw [hf]
    rfl
  · show selectVariant g.isCoroutine = Variant.blocking
    rw [hg]
    rfl

/-- Witness for the amended C1 at the two concrete probes. -/
theorem variant_by_inspection_witness :
    (decorator probeCfg coroProbe).variant = Variant.suspending ∧
    (decorator probeCfg funcProbe).variant = Variant.blocking :=
  variant_by_inspection probeCfg coroProbe funcProbe rfl rfl

/-- C8: the decorator preserves the callable's nature — the wrapper is a
coroutine function exactly when the wrapped function is (lines 39-63 of
`decorators.py` define an `async def` wrapper in the coroutine branch and
a plain `def` wrapper otherwise), and the suspending variant guards
exactly the coroutine functions. -/
theorem wrapper_preserves_kind {α ε β : Type} (cfg : ThrottleConfiguration)
    (f : GuardedOp α ε β) :
    (decorator cfg f).isCoroutine = f.isCoroutine ∧
    (decorator cfg f).variant =
      (if f.isCoroutine then Variant.suspending else Variant.blocking) :=
  ⟨rfl, rfl⟩

/-- C10: `functools.wraps(func)` (lines 43 and 55 of `decorators.py`)
carries the original function's metadata onto the wrapper and records the
wrapped-function reference, so the decorated callable is externally
indistinguishable from the original by its metadata. -/
theorem wrapper_preserves_metadata {α ε β : Type} (cfg : ThrottleConfiguration)
    (f : GuardedOp α ε β) :
    (decorator cfg f).meta = f.meta ∧ (decorator cfg f).wrapped = f :=
  ⟨rfl, rfl⟩

/-- An event the admission loop itself may emit: a decision step or a
wait/suspend step, never a lock or invocation event. -/
def admitEvOnly : SeqEv → Bool
  | SeqEv.decideStep => true
  | SeqEv.waitStep _ => true
  | _ => false

/-- Whether a call outcome means the guarded operation ran. -/
def isCompleted {ε β : Type} : CallOutcome ε β → Bool
  | CallOutcome.completed _ => true
  | _ => false

/-- The admission loop emits only decision and wait events. -/
theorem admitLoop_evs (fuel : Nat) : ∀ (c : Option Nat) (w : Nat) (hist : List Int)
    (now : Int) (cfg : ThrottleConfiguration),
    ((admitLoop fuel c w hist now cfg).2).all admitEvOnly = true := by
  induction fuel with
  | zero => intro c w hist now cfg; rfl
  | succ n ih =>
    intro c w hist now cfg
    rcases hd : decide hist now cfg with ⟨dec, h2⟩
    cases dec with
    | Allow => simp [admitLoop, hd, admitEvOnly]
    | Reject => simp [admitLoop, hd, admitEvOnly]
    | WaitFor d =>
      by_cases hcw : c = some w
      · simp [admitLoop, hd, hcw, admitEvOnly]
      · simp only [admitLoop, hd, if_neg hcw, List.all_cons, Bool.and_eq_true]
        exact ⟨rfl, rfl, ih c (w + 1) h2 (now + d) cfg⟩

/-- C3: invalid configuration (`calls <= 0` or `period <= 0`) makes the
decoration itself fail with `ConfigurationError`, before any wrapper (and
hence any call to the guarded operation) exists; with a valid
configuration decoration succeeds and no invocation of the wrapper can
ever surface a configuration error — validation never happens during a
call. -/
theorem config_error_at_setup {α ε β : Type} (calls period : Int) (r : Bool)
    (f : GuardedOp α ε β) :
    (calls ≤ 0 ∨ period ≤ 0 →
      throttleFactory calls period r f = Except.error ThrottleError.ConfigurationError) ∧
    (0 < calls → 0 < period →
      throttleFactory calls period r f =
        Except.ok (decorator (ThrottleConfiguration.mk calls period r) f) ∧
      ∀ (a : α) (hist : List Int) (now : Int) (c : Option Nat),
        ((decorator (ThrottleConfiguration.mk calls period r) f).run a hist now c).1 ≠
          CallOutcome.configFailure) := by
  constructor
  · intro hbad
    have hm : mkThrottle calls period r = Except.error ThrottleError.ConfigurationError := by
      simp only [mkThrottle]
      rw [if_pos hbad]
    simp [throttleFactory, hm]
  · intro hc hp
    have hcond : ¬ (calls ≤ 0 ∨ period ≤ 0) := by
      push_neg
      exact ⟨hc, hp⟩
    have hm : mkThrottle calls period r =
        Except.ok (ThrottleConfiguration.mk calls period r) := by
      simp only [mkThrottle]
      rw [if_neg hcond]
    constructor
    · simp [throttleFactory, hm]
    · intro a hist now c
      rcases hA : admitLoop (hist.length + 1 + 1) c 0 hist now
          (ThrottleConfiguration.mk calls period r) with ⟨res, evs⟩
      cases res <;> simp [decorator, wrapperRun, hA]

/-- A probe function used by the C3 witness. -/
def funcProbeC3 : GuardedOp Nat Unit Nat :=
  GuardedOp.mk (PyMeta.mk "f" "d") false (fun n => Except.ok n)

/-- Witness for C3: decorating with `calls = 0` fails with
`ConfigurationError`, and with the valid `calls = 1, period = 1` a call
through the wrapper never surfaces a configuration error. -/
theorem config_error_at_setup_witness :
    throttleFactory 0 1 false funcProbeC3 = Except.error ThrottleError.ConfigurationError ∧
    ((decorator (ThrottleConfiguration.mk 1 1 false) funcProbeC3).run 5 [] 0 none).1 ≠
      CallOutcome.configFailure :=
  ⟨(config_error_at_setup 0 1 false funcProbeC3).1 (Or.inl (le_refl 0)),
   ((config_error_at_setup 1 1 false funcProbeC3).2 (by decide) (by decide)).2 5 [] 0 none⟩

/-- C4: with `raiseOnThrottle` set and the sliding window full at call
time, the wrapper fails with `ThrottleExceeded` and the guarded operation
is never invoked. -/
theorem reject_mode_never_invokes {α ε β : Type} (cfg : ThrottleConfiguration)
    (f : α → Except ε β) (a : α) (hist : List Int) (now : Int) (c : Option Nat)
    (hraise : cfg.raiseOnThrottle = true)
    (hfull : cfg.calls ≤ ((evict hist now cfg.period).length : Int)) :
    (wrapperRun cfg f a hist now c).1 = CallOutcome.throttleFailure ∧
    SeqEv.invokeGuarded ∉ (wrapperRun cfg f a hist now c).2.2 := by
  have hd : decide hist now cfg = (AdmissionDecision.Reject, evict hist now cfg.period) := by
    simp only [decide]
    rw [if_neg (not_lt.mpr hfull), if_pos hraise]
  have hA : admitLoop (hist.length + 1 + 1) c 0 hist now cfg
      = (AdmitResult.rejected, [SeqEv.decideStep]) := by
    simp [admitLoop, hd]
  constructor
  · simp [wrapperRun, hA]
  · simp [wrapperRun, hA]

/-- Witness for C4: `calls = 1, period = 1`, reject mode on; the second
immediate call (history `[0]` at time `0`) is rejected without invoking
the guarded operation. -/
theorem reject_mode_never_invokes_witness :
    (wrapperRun (ThrottleConfiguration.mk 1 1 true)
        (fun n => (Except.ok n : Except Unit Nat)) 7 [0] 0 none).1 =
      CallOutcome.throttleFailure ∧
    SeqEv.invokeGuarded ∉ (wrapperRun (ThrottleConfiguration.mk 1 1 true)
        (fun n => (Except.ok n : Except Unit Nat)) 7 [0] 0 none).2.2 :=
  reject_mode_never_invokes (ThrottleConfiguration.mk 1 1 true)
    (fun n => (Except.ok n : Except Unit Nat)) 7 [0] 0 none rfl (by decide)

/-- C5: every wrapper invocation acquires the lock, runs the whole
admission loop (only decision and wait events) while holding it, releases
it, and only if admission completed invokes the guarded operation — the
guarded operation executes strictly after the release, outside the
critical section. -/
theorem wrapper_control_flow {α ε β : Type} (cfg : ThrottleConfiguration)
    (f : α → Except ε β) (a : α) (hist : List Int) (now : Int) (c : Option Nat) :
    ∃ admitPart : List SeqEv, admitPart.all admitEvOnly = true ∧
      (wrapperRun cfg f a hist now c).2.2 =
        SeqEv.acquire :: (admitPart ++ SeqEv.release ::
          (if isCompleted (wrapperRun cfg f a hist now c).1 = true then
            [SeqEv.invokeGuarded] else [])) := by
  have hall := admitLoop_evs (hist.length + 1 + 1) c 0 hist now cfg
  rcases hA : admitLoop (hist.length + 1 + 1) c 0 hist now cfg with ⟨res, evs⟩
  rw [hA] at hall
  refine ⟨evs, hall, ?_⟩
  cases res <;> simp [wrapperRun, hA, isCompleted]

/-- C6: once admission succeeds the wrapper invokes the guarded operation
on exactly the argument it received and returns exactly its result; an
exception (`Except.error`) raised by the guarded operation propagates
unchanged, never caught or translated by the throttle. -/
theorem admitted_invokes_unchanged {α ε β : Type} (cfg : ThrottleConfiguration)
    (f : α → Except ε β) (a : α) (hist : List Int) (now : Int) (c : Option Nat)
    (h2 : List Int) (tm : Int)
    (hadm : (admitLoop (hist.length + 1 + 1) c 0 hist now cfg).1 =
      AdmitResult.admitted h2 tm) :
    (wrapperRun cfg f a hist now c).1 = CallOutcome.completed (f a) ∧
    (∀ ex : ε, f a = Except.error ex →
      (wrapperRun cfg f a hist now c).1 = CallOutcome.completed (Except.error ex)) := by
  rcases hA : admitLoop (hist.length + 1 + 1) c 0 hist now cfg with ⟨res, evs⟩
  rw [hA] at hadm
  simp only at hadm
  subst hadm
  constructor
  · simp [wrapperRun, hA]
  · intro ex hex
    simp [wrapperRun, hA, hex]

/-- Witness for C6: an empty history admits immediately and the wrapper
returns exactly the guarded operation's result on its argument. -/
theorem admitted_invokes_unchanged_witness :
    (wrapperRun (ThrottleConfiguration.mk 1 1 false)
        (fun n => (Except.ok (n + 1) : Except Unit Nat)) 41 [] 0 none).1 =
      CallOutcome.completed (Except.ok 42) :=
  (admitted_invokes_unchanged (ThrottleConfiguration.mk 1 1 false)
    (fun n => (Except.ok (n + 1) : Except Unit Nat)) 41 [] 0 none [0] 0 rfl).1

/-- C9: if the admission attempt fails — `ThrottleExceeded` under the
reject policy, or cancellation of a suspended wait — the wrapper's trace
still ends by releasing the lock (the `with lock:` block of
`decorators.py` releases on exception), the guarded operation is never
invoked, and the call history is left as it was, so subsequent callers can
still attempt admission. -/
theorem lock_released_on_failure {α ε β : Type} (cfg : ThrottleConfiguration)
    (f : α → Except ε β) (a : α) (hist : List Int) (now : Int) (c : Option Nat)
    (h : (wrapperRun cfg f a hist now c).1 = CallOutcome.throttleFailure ∨
         (wrapperRun cfg f a hist now c).1 = CallOutcome.cancelledFailure) :
    (wrapperRun cfg f a hist now c).2.1 = hist ∧
    ∃ admitPart : List SeqEv, admitPart.all admitEvOnly = true ∧
      (wrapperRun cfg f a hist now c).2.2 =
        SeqEv.acquire :: (admitPart ++ [SeqEv.release]) := by
  have hall := admitLoop_evs (hist.length + 1 + 1) c 0 hist now cfg
  rcases hA : admitLoop (hist.length + 1 + 1) c 0 hist now cfg with ⟨res, evs⟩
  rw [hA] at hall
  cases res with
  | admitted h2 tm =>
    exfalso
    rcases h with h | h <;> simp [wrapperRun, hA] at h
  | rejected => exact ⟨by simp [wrapperRun, hA], evs, hall, by simp [wrapperRun, hA]⟩
  | cancelled => exact ⟨by simp [wrapperRun, hA], evs, hall, by simp [wrapperRun, hA]⟩
  | fuelOut =>
    exfalso
    rcases h with h | h <;> simp [wrapperRun, hA] at h

/-- Witness for C9: a rejected attempt (`calls = 1, period = 1`, reject
mode, window full) leaves the history unchanged and releases the lock as
the final event. -/
theorem lock_released_on_failure_witness :
    (wrapperRun (ThrottleConfiguration.mk 1 1 true)
        (fun n => (Except.ok n : Except Unit Nat)) 9 [0] 0 none).2.1 = [0] ∧
    ∃ admitPart : List SeqEv, admitPart.all admitEvOnly = true ∧
      (wrapperRun (ThrottleConfiguration.mk 1 1 true)
          (fun n => (Except.ok n : Except Unit Nat)) 9 [0] 0 none).2.2 =
        SeqEv.acquire :: (admitPart ++ [SeqEv.release]) :=
  lock_released_on_failure (ThrottleConfiguration.mk 1 1 true)
    (fun n => (Except.ok n : Except Unit Nat)) 9 [0] 0 none (Or.inl rfl)

/-- A store of per-guarded-operation throttle state: each set-up guarded
operation owns the slot named by the identifier it was given at
decoration; `nextId` is the next fresh identifier. -/
structure ThrottleRegistry where
  nextId : Nat
  hist : Nat → List Int

/-- Embedding of the set-up performed once per guarded operation in
`decorator` (`decorators.py` lines 40-41 and 52-53): a fresh throttle
state (empty call history) and lock are created for the function being
wrapped and shared by all of its future invocations. -/
def decorateAlloc (r : ThrottleRegistry) : Nat × ThrottleRegistry :=
  (r.nextId, ThrottleRegistry.mk (r.nextId + 1) (Function.update r.hist r.nextId []))

/-- One invocation through the wrapper owning slot `i`: the admission loop
reads and updates only that slot's history, and only that slot's lock is
acquired and released (events are tagged with the owning slot). -/
def invokeThrough (r : ThrottleRegistry) (i : Nat) (cfg : ThrottleConfiguration)
    (c : Option Nat) (now : Int) :
    AdmitResult × ThrottleRegistry × List (Nat × SeqEv) :=
  let res := admitLoop ((r.hist i).length + 1 + 1) c 0 (r.hist i) now cfg
  let evs := (i, SeqEv.acquire) :: res.2.map (fun e => (i, e)) ++ [(i, SeqEv.release)]
  match res.1 with
  | AdmitResult.admitted h2 _ =>
      (res.1, ThrottleRegistry.mk r.nextId (Function.update r.hist i h2), evs)
  | AdmitResult.rejected => (res.1, r, evs)
  | AdmitResult.cancelled => (res.1, r, evs)
  | AdmitResult.fuelOut => (res.1, r, evs)

/-- C7: each guarded operation owns exactly one throttle state, allocated
fresh at set-up (two set-ups get distinct identifiers and the new slot
starts empty), and invocations through one operation neither read another
operation's lock (every emitted event is tagged with the invoked slot) nor
change another operation's history. -/
theorem per_op_independence (r : ThrottleRegistry) (cfg : ThrottleConfiguration)
    (c : Option Nat) (now : Int) (i j : Nat) (hij : j ≠ i) :
    (decorateAlloc r).1 = r.nextId ∧
    (decorateAlloc (decorateAlloc r).2).1 ≠ (decorateAlloc r).1 ∧
    (decorateAlloc r).2.hist r.nextId = [] ∧
    (invokeThrough r i cfg c now).2.1.hist j = r.hist j ∧
    ∀ p ∈ (invokeThrough r i cfg c now).2.2, p.1 = i := by
  refine ⟨rfl, by simp [decorateAlloc], by simp [decorateAlloc], ?_, ?_⟩
  · rcases hA : admitLoop ((r.hist i).length + 1 + 1) c 0 (r.hist i) now cfg
      with ⟨res, evs⟩
    cases res with
    | admitted h2 tm =>
      simp only [invokeThrough, hA]
      exact Function.update_noteq hij h2 r.hist
    | rejected => simp [invokeThrough, hA]
    | cancelled => simp [invokeThrough, hA]
    | fuelOut => simp [invokeThrough, hA]
  · intro p hp
    rcases hA : admitLoop ((r.hist i).length + 1 + 1) c 0 (r.hist i) now cfg
      with ⟨res, evs⟩
    have hp2 : p ∈ (i, SeqEv.acquire) :: evs.map (fun e => (i, e)) ++ [(i, SeqEv.release)] := by
      cases res <;> simpa [invokeThrough, hA] using hp
    rcases List.mem_cons.mp hp2 with rfl | hp3
    · rfl
    rcases List.mem_append.mp hp3 with hp4 | hp4
    · rcases List.mem_map.mp hp4 with ⟨e, _, rfl⟩
      rfl
    · rcases List.mem_singleton.mp hp4 with rfl
      rfl

/-- Witness for C7: with two set-up operations (slots `0` and `1`),
invoking through slot `0` leaves slot `1`'s history untouched. -/
theorem per_op_independence_witness :
    (invokeThrough (ThrottleRegistry.mk 2 (fun _ => []))
        0 (ThrottleConfiguration.mk 1 1 false) none 0).2.1.hist 1 = [] :=
  (per_op_independence (ThrottleRegistry.mk 2 (fun _ => []))
    (ThrottleConfiguration.mk 1 1 false) none 0 0 1 (by decide)).2.2.2.1

/-- Actions of a caller of one guarded operation, abstracting the wrapper
body of `decorators.py`: take the operation's lock, perform admission
steps (decide/wait iterations of `thr.call()`), release the lock, invoke
the guarded operation. -/
inductive Act
  | acquire
  | admitStep
  | release
  | invoke
deriving DecidableEq

/-- Events of a concurrent execution, tagged with the caller's thread (or
task) identifier. -/
inductive Ev
  | acquire (t : Nat)
  | admitStep (t : Nat)
  | release (t : Nat)
  | invoke (t : Nat)
deriving DecidableEq

/-- The remaining program of a caller inside the critical section:
`k` admission steps, then release, then the guarded invocation. -/
def critProg (k : Nat) : List Act :=
  List.replicate k Act.admitStep ++ [Act.release, Act.invoke]

/-- The wrapper body as a caller program (`decorators.py` lines 44-49 /
56-61): acquire the lock, run the whole admission loop — here `n`
decide/wait iterations — while holding it, release, then invoke the
guarded operation. -/
def wrapperProg (n : Nat) : List Act :=
  Act.acquire :: critProg n

/-- State of one guarded operation's callers: who holds the operation's
lock, and each caller's remaining program. -/
structure Sys where
  lock : Option Nat
  progs : Nat → List Act

/-- One step of caller `t`: an `acquire` is only enabled while the lock is
free (a blocked caller queues); `release` frees the lock; admission and
invocation steps are always enabled — mutual exclusion is not assumed
here, it is proved from the lock discipline and the program shape. -/
def stepThread (s : Sys) (t : Nat) : Option (Ev × Sys) :=
  match s.progs t with
  | [] => none
  | Act.acquire :: p =>
    match s.lock with
    | none => some (Ev.acquire t, Sys.mk (some t) (Function.update s.progs t p))
    | some _ => none
  | Act.admitStep :: p =>
    some (Ev.admitStep t, Sys.mk s.lock (Function.update s.progs t p))
  | Act.release :: p =>
    some (Ev.release t, Sys.mk none (Function.update s.progs t p))
  | Act.invoke :: p =>
    some (Ev.invoke t, Sys.mk s.lock (Function.update s.progs t p))

/-- Run a schedule (an arbitrary interleaving, given as the list of
callers picked to step next; disabled picks are skipped), returning the
event trace and the final state. -/
def runSched : List Nat → Sys → List Ev × Sys
  | [], s => ([], s)
  | t :: ts, s =>
    match stepThread s t with
    | none => runSched ts s
    | some (e, s1) =>
      let r := runSched ts s1
      (e :: r.1, r.2)

/-- Effect of one event on the lock holder. -/
def applyEv (l : Option Nat) (e : Ev) : Option Nat :=
  match e with
  | Ev.acquire t => some t
  | Ev.release _ => none
  | Ev.admitStep _ => l
  | Ev.invoke _ => l

/-- Lock holder after a trace, starting from holder `l`. -/
def holderAfter (l : Option Nat) (tr : List Ev) : Option Nat :=
  tr.foldl applyEv l

/-- The callers that acquired the lock, in trace order. -/
def tidsAcq (tr : List Ev) : List Nat :=
  tr.filterMap (fun e => match e with | Ev.acquire t => some t | _ => none)

/-- The callers that released the lock (completed their admission
attempt), in trace order. -/
def tidsRel (tr : List Ev) : List Nat :=
  tr.filterMap (fun e => match e with | Ev.release t => some t | _ => none)

/-- Initial state: the lock is free and caller `t` is about to run the
wrapper with `counts t` admission iterations. -/
def initSys (counts : Nat → Nat) : Sys :=
  Sys.mk none (fun t => wrapperProg (counts t))

/-- Per-caller phase invariant: a caller is before its acquire, inside the
critical section (and then it is the lock holder), past its release, or
done. -/
def threadOk (s : Sys) (t : Nat) : Prop :=
  (∃ n, s.progs t = wrapperProg n) ∨
  (∃ k, s.progs t = critProg k ∧ s.lock = some t) ∨
  s.progs t = [Act.invoke] ∨ s.progs t = []

/-- System invariant: every caller is in a legal phase. -/
def Inv (s : Sys) : Prop := ∀ t, threadOk s t

theorem critProg_succ (k : Nat) :
    critProg (k + 1) = Act.admitStep :: critProg k := by
  simp [critProg, List.replicate_succ]

/-- Inversion of one scheduler step. -/
theorem stepThread_spec {s : Sys} {t : Nat} {e : Ev} {s1 : Sys}
    (h : stepThread s t = some (e, s1)) :
    ∃ p, s1.progs = Function.update s.progs t p ∧
      ((s.progs t = Act.acquire :: p ∧ e = Ev.acquire t ∧ s.lock = none ∧
          s1.lock = some t) ∨
       (s.progs t = Act.admitStep :: p ∧ e = Ev.admitStep t ∧ s1.lock = s.lock) ∨
       (s.progs t = Act.release :: p ∧ e = Ev.release t ∧ s1.lock = none) ∨
       (s.progs t = Act.invoke :: p ∧ e = Ev.invoke t ∧ s1.lock = s.lock)) := by
  cases hp : s.progs t with
  | nil => simp [stepThread, hp] at h
  | cons a rest =>
    cases a with
    | acquire =>
      cases hl : s.lock with
      | none =>
        simp [stepThread, hp, hl] at h
        obtain ⟨he, hs⟩ := h
        subst he
        subst hs
        exact ⟨rest, rfl, Or.inl ⟨rfl, rfl, rfl, rfl⟩⟩
      | some v => simp [stepThread, hp, hl] at h
    | admitStep =>
      simp [stepThread, hp] at h
      obtain ⟨he, hs⟩ := h
      subst he
      subst hs
      exact ⟨rest, rfl, Or.inr (Or.inl ⟨rfl, rfl, rfl⟩)⟩
    | release =>
      simp [stepThread, hp] at h
      obtain ⟨he, hs⟩ := h
      subst he
      subst hs
      exact ⟨rest, rfl, Or.inr (Or.inr (Or.inl ⟨rfl, rfl, rfl⟩))⟩
    | invoke =>
      simp [stepThread, hp] at h
      obtain ⟨he, hs⟩ := h
      subst he
      subst hs
      exact ⟨rest, rfl, Or.inr (Or.inr (Or.inr ⟨rfl, rfl, rfl⟩))⟩

theorem threadOk_acquire {s : Sys} {t : Nat} {p : List Act}
    (hok : threadOk s t) (hp : s.progs t = Act.acquire :: p) :
    ∃ n, p = critProg n := by
  rcases hok with ⟨n, hw⟩ | ⟨k, hck, hlk⟩ | hi | hn
  · rw [hp] at hw
    simp [wrapperProg] at hw
    exact ⟨n, hw⟩
  · rw [hp] at hck
    cases k with
    | zero => simp [critProg] at hck
    | succ k =>
      rw [critProg_succ] at hck
      simp at hck
  · rw [hp] at hi
    simp at hi
  · rw [hp] at hn
    simp at hn

theorem threadOk_admitStep {s : Sys} {t : Nat} {p : List Act}
    (hok : threadOk s t) (hp : s.progs t = Act.admitStep :: p) :
    s.lock = some t ∧ ∃ k, p = critProg k := by
  rcases hok with ⟨n, hw⟩ | ⟨k, hck, hlk⟩ | hi | hn
  · rw [hp] at hw
    simp [wrapperProg] at hw
  · rw [hp] at hck
    cases k with
    | zero => simp [critProg] at hck
    | succ k =>
      rw [critProg_succ] at hck
      simp only [List.cons.injEq] at hck
      exact ⟨hlk, k, hck.2⟩
  · rw [hp] at hi
    simp at hi
  · rw [hp] at hn
    simp at hn

theorem threadOk_release {s : Sys} {t : Nat} {p : List Act}
    (hok : threadOk s t) (hp : s.progs t = Act.release :: p) :
    s.lock = some t ∧ p = [Act.invoke] := by
  rcases hok with ⟨n, hw⟩ | ⟨k, hck, hlk⟩ | hi | hn
  · rw [hp] at hw
    simp [wrapperProg] at hw
  · rw [hp] at hck
    cases k with
    | zero =>
      simp [critProg] at hck
      exact ⟨hlk, hck⟩
    | succ k =>
      rw [critProg_succ] at hck
      simp at hck
  · rw [hp] at hi
    simp at hi
  · rw [hp] at hn
    simp at hn

theorem threadOk_invoke {s : Sys} {t : Nat} {p : List Act}
    (hok : threadOk s t) (hp : s.progs t = Act.invoke :: p) : p = [] := by
  rcases hok with ⟨n, hw⟩ | ⟨k, hck, hlk⟩ | hi | hn
  · rw [hp] at hw
    simp [wrapperProg] at hw
  · rw [hp] at hck
    cases k with
    | zero => simp [critProg] at hck
    | succ k =>
      rw [critProg_succ] at hck
      simp at hck
  · rw [hp] at hi
    simp only [List.cons.injEq] at hi
    exact hi.2
  · rw [hp] at hn
    simp at hn

/-- The invariant is preserved by every scheduler step. -/
theorem Inv_step {s : Sys} {t : Nat} {e : Ev} {s1 : Sys}
    (hinv : Inv s) (hstep : stepThread s t = some (e, s1)) : Inv s1 := by
  obtain ⟨p, hpr, hc⟩ := stepThread_spec hstep
  intro u
  by_cases hu : u = t
  · subst hu
    rcases hc with ⟨hp, _, _, hl1⟩ | ⟨hp, _, hl1⟩ | ⟨hp, _, hl1⟩ | ⟨hp, _, hl1⟩
    · obtain ⟨n, hpc⟩ := threadOk_acquire (hinv u) hp
      refine Or.inr (Or.inl ⟨n, ?_, hl1⟩)
      rw [hpr, Function.update_same, hpc]
    · obtain ⟨hlk, k, hpc⟩ := threadOk_admitStep (hinv u) hp
      refine Or.inr (Or.inl ⟨k, ?_, ?_⟩)
      · rw [hpr, Function.update_same, hpc]
      · rw [hl1, hlk]
    · obtain ⟨hlk, hpc⟩ := threadOk_release (hinv u) hp
      refine Or.inr (Or.inr (Or.inl ?_))
      rw [hpr, Function.update_same, hpc]
    · have hpc := threadOk_invoke (hinv u) hp
      refine Or.inr (Or.inr (Or.inr ?_))
      rw [hpr, Function.update_same, hpc]
  · have hpu : s1.progs u = s.progs u := by
      rw [hpr]
      exact Function.update_noteq hu p s.progs
    rcases hc with ⟨hp, _, hl0, hl1⟩ | ⟨hp, _, hl1⟩ | ⟨hp, _, hl1⟩ | ⟨hp, _, hl1⟩
    · rcases hinv u with ⟨n, hw⟩ | ⟨k, hck, hlk⟩ | hi | hn
      · exact Or.inl ⟨n, by rw [hpu, hw]⟩
      · rw [hl0] at hlk
        exact absurd hlk (by simp)
      · exact Or.inr (Or.inr (Or.inl (by rw [hpu, hi])))
      · exact Or.inr (Or.inr (Or.inr (by rw [hpu, hn])))
    · rcases hinv u with ⟨n, hw⟩ | ⟨k, hck, hlk⟩ | hi | hn
      · exact Or.inl ⟨n, by rw [hpu, hw]⟩
      · exact Or.inr (Or.inl ⟨k, by rw [hpu, hck], by rw [hl1, hlk]⟩)
      · exact Or.inr (Or.inr (Or.inl (by rw [hpu, hi])))
      · exact Or.inr (Or.inr (Or.inr (by rw [hpu, hn])))
    · have hlt := (threadOk_release (hinv t) hp).1
      rcases hinv u with ⟨n, hw⟩ | ⟨k, hck, hlk⟩ | hi | hn
      · exact Or.inl ⟨n, by rw [hpu, hw]⟩
      · exfalso
        rw [hlt] at hlk
        have h2 := Option.some.inj hlk
        exact hu h2.symm
      · exact Or.inr (Or.inr (Or.inl (by rw [hpu, hi])))
      · exact Or.inr (Or.inr (Or.inr (by rw [hpu, hn])))
    · rcases hinv u with ⟨n, hw⟩ | ⟨k, hck, hlk⟩ | hi | hn
      · exact Or.inl ⟨n, by rw [hpu, hw]⟩
      · exact Or.inr (Or.inl ⟨k, by rw [hpu, hck], by rw [hl1, hlk]⟩)
      · exact Or.inr (Or.inr (Or.inl (by rw [hpu, hi])))
      · exact Or.inr (Or.inr (Or.inr (by rw [hpu, hn])))

/-- Under the invariant, an admission step by `u` can only happen while
`u` holds the lock. -/
theorem step_admit_lock {s : Sys} {t u : Nat} {s1 : Sys} (hinv : Inv s)
    (hstep : stepThread s t = some (Ev.admitStep u, s1)) : s.lock = some u := by
  obtain ⟨p, _, hc⟩ := stepThread_spec hstep
  rcases hc with ⟨_, he, _, _⟩ | ⟨hp, he, _⟩ | ⟨_, he, _⟩ | ⟨_, he, _⟩
  · exact absurd he (by simp)
  · have hut := Ev.admitStep.inj he
    rw [hut]
    exact (threadOk_admitStep (hinv t) hp).1
  · exact absurd he (by simp)
  · exact absurd he (by simp)

/-- The lock evolves along the trace exactly as `applyEv` says. -/
theorem stepThread_lock {s : Sys} {t : Nat} {e : Ev} {s1 : Sys}
    (hstep : stepThread s t = some (e, s1)) : s1.lock = applyEv s.lock e := by
  obtain ⟨p, _, hc⟩ := stepThread_spec hstep
  rcases hc with ⟨_, he, _, hl1⟩ | ⟨_, he, hl1⟩ | ⟨_, he, hl1⟩ | ⟨_, he, hl1⟩ <;>
    subst he <;> simp [applyEv, hl1]

theorem holderAfter_nil (l : Option Nat) : holderAfter l [] = l := rfl

theorem holderAfter_cons (l : Option Nat) (e : Ev) (tr : List Ev) :
    holderAfter l (e :: tr) = holderAfter (applyEv l e) tr := rfl

theorem tidsAcq_acquire (t : Nat) (tr : List Ev) :
    tidsAcq (Ev.acquire t :: tr) = t :: tidsAcq tr := rfl

theorem tidsAcq_admitStep (t : Nat) (tr : List Ev) :
    tidsAcq (Ev.admitStep t :: tr) = tidsAcq tr := rfl

theorem tidsAcq_release (t : Nat) (tr : List Ev) :
    tidsAcq (Ev.release t :: tr) = tidsAcq tr := rfl

theorem tidsAcq_invoke (t : Nat) (tr : List Ev) :
    tidsAcq (Ev.invoke t :: tr) = tidsAcq tr := rfl

theorem tidsRel_acquire (t : Nat) (tr : List Ev) :
    tidsRel (Ev.acquire t :: tr) = tidsRel tr := rfl

theorem tidsRel_admitStep (t : Nat) (tr : List Ev) :
    tidsRel (Ev.admitStep t :: tr) = tidsRel tr := rfl

theorem tidsRel_release (t : Nat) (tr : List Ev) :
    tidsRel (Ev.release t :: tr) = t :: tidsRel tr := rfl

theorem tidsRel_invoke (t : Nat) (tr : List Ev) :
    tidsRel (Ev.invoke t :: tr) = tidsRel tr := rfl

theorem runSched_skip {ts : List Nat} {s : Sys} {t : Nat}
    (hstep : stepThread s t = none) :
    runSched (t :: ts) s = runSched ts s := by
  simp [runSched, hstep]

theorem runSched_step_fst {ts : List Nat} {s s1 : Sys} {t : Nat} {e : Ev}
    (hstep : stepThread s t = some (e, s1)) :
    (runSched (t :: ts) s).1 = e :: (runSched ts s1).1 := by
  simp [runSched, hstep]

theorem runSched_step_snd {ts : List Nat} {s s1 : Sys} {t : Nat} {e : Ev}
    (hstep : stepThread s t = some (e, s1)) :
    (runSched (t :: ts) s).2 = (runSched ts s1).2 := by
  simp [runSched, hstep]

/-- Every admission step in a trace happens while its caller holds the
lock. -/
theorem run_admit_holder : ∀ (sched : List Nat) (s : Sys), Inv s → ∀ (i u : Nat),
    ((runSched sched s).1)[i]? = some (Ev.admitStep u) →
    holderAfter s.lock (((runSched sched s).1).take i) = some u := by
  intro sched
  induction sched with
  | nil =>
    intro s _ i u hget
    simp [runSched] at hget
  | cons t ts ih =>
    intro s hinv i u hget
    cases hstep : stepThread s t with
    | none =>
      rw [runSched_skip hstep] at hget ⊢
      exact ih s hinv i u hget
    | some es =>
      rcases es with ⟨e, s1⟩
      rw [runSched_step_fst hstep] at hget ⊢
      cases i with
      | zero =>
        rw [List.getElem?_cons_zero] at hget
        have he := Option.some.inj hget
        subst he
        rw [List.take_zero, holderAfter_nil]
        exact step_admit_lock hinv hstep
      | succ j =>
        rw [List.getElem?_cons_succ] at hget
        rw [List.take_succ_cons, holderAfter_cons, ← stepThread_lock hstep]
        exact ih s1 (Inv_step hinv hstep) j u hget

/-- Completions match acquisitions: the callers that released, in order,
followed by the current holder (if any), are exactly the callers that
acquired, in order. -/
theorem run_order : ∀ (sched : List Nat) (s : Sys), Inv s →
    Option.toList s.lock ++ tidsAcq (runSched sched s).1
      = tidsRel (runSched sched s).1
        ++ Option.toList ((runSched sched s).2).lock := by
  intro sched
  induction sched with
  | nil =>
    intro s _
    simp [runSched, tidsAcq, tidsRel]
  | cons t ts ih =>
    intro s hinv
    cases hstep : stepThread s t with
    | none =>
      rw [runSched_skip hstep]
      exact ih s hinv
    | some es =>
      rcases es with ⟨e, s1⟩
      rw [runSched_step_fst hstep, runSched_step_snd hstep]
      have ihs := ih s1 (Inv_step hinv hstep)
      obtain ⟨p, _, hc⟩ := stepThread_spec hstep
      rcases hc with ⟨hp, he, hl0, hl1⟩ | ⟨hp, he, hl1⟩ | ⟨hp, he, hl1⟩ | ⟨hp, he, hl1⟩
      · subst he
        rw [tidsAcq_acquire, tidsRel_acquire, hl0]
        rw [hl1] at ihs
        simpa using ihs
      · subst he
        rw [tidsAcq_admitStep, tidsRel_admitStep]
        rw [hl1] at ihs
        exact ihs
      · subst he
        have hlt := (threadOk_release (hinv t) hp).1
        rw [tidsAcq_release, tidsRel_release, hlt]
        rw [hl1] at ihs
        simp at ihs
        simp [ihs]
      · subst he
        rw [tidsAcq_invoke, tidsRel_invoke]
        rw [hl1] at ihs
        exact ihs

/-- C2: with the lock acquired before the admission attempt and held
across the whole admit loop (the caller programs `wrapperProg`), in every
interleaved execution an admission step happens only while its caller
holds the lock — no two callers of the same guarded operation ever
evaluate admission concurrently — and attempts complete (release the
lock) exactly in lock-acquisition order. -/
theorem admission_serialized (counts : Nat → Nat) (sched : List Nat) :
    (∀ (i u : Nat),
        ((runSched sched (initSys counts)).1)[i]? = some (Ev.admitStep u) →
        holderAfter none (((runSched sched (initSys counts)).1).take i) = some u) ∧
    tidsAcq (runSched sched (initSys counts)).1
      = tidsRel (runSched sched (initSys counts)).1
        ++ Option.toList ((runSched sched (initSys counts)).2).lock := by
  have hinv : Inv (initSys counts) := fun t => Or.inl ⟨counts t, rfl⟩
  constructor
  · intro i u hget
    exact run_admit_holder sched (initSys counts) hinv i u hget
  · have h := run_order sched (initSys counts) hinv
    simpa [initSys] using h

/-- Witness for C2: two callers, a concrete schedule in which caller 1 is
denied the lock while caller 0 is admitted; the admission step at trace
position 1 indeed happens while caller 0 holds the lock. -/
theorem admission_serialized_witness :
    holderAfter none
        (((runSched [0, 0, 1, 0, 0, 1, 1, 1] (initSys (fun _ => 1))).1).take 1)
      = some 0 :=
  (admission_serialized (fun _ => 1) [0, 0, 1, 0, 0, 1, 1, 1]).1 1 0 (by decide)

end CallThrottle
